import Mathlib

/-!
Shallow embedding of `src/tasks/gitea/gitea.ts` from the otomi-tasks
repository: a reconciliation task that upserts a Gitea organization, a set of
permission-scoped teams, repositories, their team bindings and a Tekton
webhook, collecting tolerated-or-recorded errors along the way.

Backend calls are modelled by an explicit `Backend` record of call results;
each embedded operation returns the sequence of backend calls it issued (a
trace of `TraceEntry`, recording the call and the tolerated status code
passed to the tolerant caller) together with the updated error log.
JavaScript runtime failures that would escape as uncaught rejections are
modelled with `Except JsAbort`.
-/

namespace GiteaTask

/-- Modelled from the spec: the fixed organization name, imported by the
source from the repository's common module (not under src/); the source's
own call descriptions show it as "otomi". -/
def orgName : String := "otomi"

/-- Modelled from the spec: the fixed name of the shared values repository,
imported from the common module (not under src/); the source's literal
calls use "values". -/
def otomiValuesRepoName : String := "values"

/-- Modelled from the spec: the fixed viewer team name, imported from the
common module (not under src/); main's literal bind call uses
"otomi-viewer". -/
def teamNameViewer : String := "otomi-viewer"

/-- Permission tiers of a team (CreateTeamOption.PermissionEnum). -/
inductive Permission where
  | read
  | write
  | admin
deriving DecidableEq, Repr

/-- Numeric rank of a permission tier, used to state the strict order
Read < Write < Admin. -/
def permRank : Permission → Nat
  | Permission.read => 0
  | Permission.write => 1
  | Permission.admin => 2

/-- CreateTeamOption from the gitea client, restricted to the fields the
source sets. -/
structure CreateTeamOption where
  canCreateOrgRepo : Bool
  name : String
  includesAllRepositories : Bool
  permission : Permission
  units : List String
deriving DecidableEq, Repr

/-- The fixed read-only viewer team template (gitea.ts lines 30-37). -/
def readOnlyTeam : CreateTeamOption :=
  { canCreateOrgRepo := false
    name := teamNameViewer
    includesAllRepositories := true
    permission := Permission.read
    units := ["repo.code"] }

/-- The editor team template, spread from readOnlyTeam (lines 39-43). -/
def editorTeam : CreateTeamOption :=
  { readOnlyTeam with
    includesAllRepositories := false
    permission := Permission.write }

/-- The admin team template, spread from editorTeam (line 45). -/
def adminTeam : CreateTeamOption :=
  { editorTeam with permission := Permission.admin }

/-- An existing team as returned by the team listing (fields used: id, name). -/
structure Team where
  id : Nat
  name : String
deriving DecidableEq, Repr

/-- An existing repository as returned by the repo listing (field used: name). -/
structure Repository where
  name : String
deriving DecidableEq, Repr

/-- Create/EditRepoOption, restricted to the fields the source sets. -/
structure RepoOption where
  autoInit : Bool
  name : String
  «_private» : Bool
deriving DecidableEq, Repr

/-- The config object of an existing hook as returned by the hook listing.
The url field may be absent (JavaScript undefined), since hooks are untyped
`any` values in the source. -/
structure HookConfig where
  url : Option String
deriving DecidableEq, Repr

/-- An existing hook as returned by the hook listing; the config field may be
absent (JavaScript undefined). -/
structure Hook where
  config : Option HookConfig
deriving DecidableEq, Repr

/-- Hook type enum of the gitea client (only Gitea is used). -/
inductive HookType where
  | gitea
deriving DecidableEq, Repr

/-- The config part of a CreateHookOption. -/
structure HookConfigOption where
  url : String
  http_method : String
  content_type : String
deriving DecidableEq, Repr

/-- CreateHookOption as built by addHook. -/
structure CreateHookOption where
  type : HookType
  config : HookConfigOption
  events : List String
deriving DecidableEq, Repr

/-- An HTTP-style failure carried by a rejected backend call: a status code
plus opaque detail text. -/
structure ApiError where
  status : Nat
  detail : String
deriving DecidableEq, Repr

/-- One backend call as issued by the task, with its arguments. -/
inductive GiteaCall where
  | orgCreate
  | orgListTeams
  | orgEditTeam (id : Nat) (opt : CreateTeamOption)
  | orgCreateTeam (org : String) (opt : CreateTeamOption)
  | orgListRepos
  | createOrgRepo (org : String) (opt : RepoOption)
  | repoEdit (org : String) (name : String) (opt : RepoOption)
  | repoAddTeam (org : String) (repo : String) (team : String)
  | repoListHooks (org : String) (repo : String)
  | repoCreateHook (org : String) (repo : String) (opt : CreateHookOption)
deriving DecidableEq, Repr

/-- A trace entry: the backend call issued together with the tolerated
status code passed to the tolerant caller for it. -/
structure TraceEntry where
  call : GiteaCall
  tolerated : Option Nat
deriving DecidableEq, Repr

/-- Whether a trace entry is a team-edit call. -/
def TraceEntry.isEditTeamCall : TraceEntry → Bool
  | ⟨GiteaCall.orgEditTeam _ _, _⟩ => true
  | _ => false

/-- Whether a trace entry is a team-create call. -/
def TraceEntry.isCreateTeamCall : TraceEntry → Bool
  | ⟨GiteaCall.orgCreateTeam _ _, _⟩ => true
  | _ => false

/-- Whether a trace entry is an add-repo-to-team binding call. -/
def TraceEntry.isAddTeamCall : TraceEntry → Bool
  | ⟨GiteaCall.repoAddTeam _ _ _, _⟩ => true
  | _ => false

/-- Whether a trace entry is a hook-create call. -/
def TraceEntry.isCreateHookCall : TraceEntry → Bool
  | ⟨GiteaCall.repoCreateHook _ _ _, _⟩ => true
  | _ => false

/-- The behaviour of the backend (and of the cluster service-discovery
collaborator) during one run: the result each call would produce. -/
structure Backend where
  orgCreate : Except ApiError Unit
  listTeams : Except ApiError (List Team)
  editTeam : Nat → CreateTeamOption → Except ApiError Unit
  createTeam : String → CreateTeamOption → Except ApiError Unit
  listRepos : Except ApiError (List Repository)
  createRepo : String → RepoOption → Except ApiError Unit
  editRepo : String → String → RepoOption → Except ApiError Unit
  addTeamToRepo : String → String → String → Except ApiError Unit
  listHooks : Except ApiError (List Hook)
  createHook : String → String → CreateHookOption → Except ApiError Unit
  readService1 : Except Unit String
  readService2 : Except Unit String

/-- Modelled from the spec: the Tolerant Caller `doApiCall` from the
repository's utils module (not under src/). It executes the backend
operation; on success it returns the result; on failure whose status equals
the tolerated code it swallows the failure; on any other failure it appends
"description: detail" to the error log. It always returns (optional result,
updated error log) and never throws. -/
def doApiCall {α : Type} (errors : List String) (description : String)
    (result : Except ApiError α) (statusCodeExists : Option Nat) :
    Option α × List String :=
  match result with
  | Except.ok a => (some a, errors)
  | Except.error err =>
    if statusCodeExists = some err.status then (none, errors)
    else (none, errors ++ [description ++ ": " ++ err.detail])

theorem doApiCall_fst {α : Type} (errors : List String) (d : String)
    (r : Except ApiError α) (t : Option Nat) :
    (doApiCall errors d r t).1 = r.toOption := by
  rcases r with e | a
  · simp only [doApiCall]
    split <;> rfl
  · rfl

theorem doApiCall_snd_ok {α : Type} (errors : List String) (d : String)
    (a : α) (t : Option Nat) :
    (doApiCall errors d (Except.ok a) t).2 = errors := rfl

/-- Whether pat occurs as a contiguous sublist at some position of l. -/
def listContainsSub (pat : List Char) : List Char → Bool
  | [] => pat.isPrefixOf []
  | c :: rest => pat.isPrefixOf (c :: rest) || listContainsSub pat rest

/-- JavaScript string includes: true iff the pattern occurs in the string. -/
def strContains (s pat : String) : Bool := listContainsSub pat.data s.data

/-- upsertTeam (gitea.ts lines 47-66): look up the existing teams by exact
name; if found, edit the team by its id tolerating 422, otherwise create it
tolerating 422. The existingTeams argument defaults to [] when undefined.
Returns (trace of calls, updated error log). -/
def upsertTeam (b : Backend) (existingTeamsArg : Option (List Team))
    (teamOption : CreateTeamOption) (errors : List String) :
    List TraceEntry × List String :=
  let existingTeams := existingTeamsArg.getD []
  match existingTeams.find? (fun el => el.name == teamOption.name) with
  | some existingTeam =>
    ([⟨GiteaCall.orgEditTeam existingTeam.id teamOption, some 422⟩],
     (doApiCall errors
       ("Updating team \"" ++ teamOption.name ++ "\" in org \"" ++ orgName ++ "\"")
       (b.editTeam existingTeam.id teamOption) (some 422)).2)
  | none =>
    ([⟨GiteaCall.orgCreateTeam orgName teamOption, some 422⟩],
     (doApiCall errors
       ("Updating team \"" ++ teamOption.name ++ "\" in org \"" ++ orgName ++ "\"")
       (b.createTeam orgName teamOption) (some 422)).2)

/-- The hooks.forEach scan of hasTektonHook (gitea.ts lines 77-82): guards
only hook.config before reading config.url, so a hook whose config is
present but whose url is absent makes the scan throw a TypeError (modelled
as `Except.error ()`). -/
def scanHooks : List Hook → Bool → Except Unit Bool
  | [], acc => Except.ok acc
  | hook :: rest, acc =>
    match hook.config with
    | none => scanHooks rest acc
    | some cfg =>
      match cfg.url with
      | none => Except.error ()
      | some u => scanHooks rest (acc || strContains u "el-tekton-listener")

/-- Whether an existing hook matches the Tekton listener: it has a config
whose url contains the fixed listener path segment. -/
def hookMatch (h : Hook) : Bool :=
  match h.config with
  | some cfg =>
    match cfg.url with
    | some u => strContains u "el-tekton-listener"
    | none => false
  | none => false

/-- hasTektonHook (gitea.ts lines 68-86): list the hooks of otomi/values
tolerating 400; when the listing produced hooks, scan them for one whose
config.url contains "el-tekton-listener". Returns (found flag, trace,
updated error log), or an abort when the scan throws. -/
def hasTektonHook (b : Backend) (errors : List String) :
    Except Unit (Bool × List TraceEntry × List String) :=
  let r := doApiCall errors
    "Getting hooks in repo \"otomi/values\"" b.listHooks (some 400)
  let entry : TraceEntry := ⟨GiteaCall.repoListHooks orgName "values", some 400⟩
  match r.1 with
  | none => Except.ok (false, [entry], r.2)
  | some hooks =>
    match scanHooks hooks false with
    | Except.error e => Except.error e
    | Except.ok tektonHook => Except.ok (tektonHook, [entry], r.2)

/-- upsertRepo (gitea.ts lines 88-123): look up the existing repos by exact
name; if absent create the repo at org scope tolerating 422, else edit it
tolerating 422; then, when a (truthy, i.e. non-empty) team name was
supplied, add the repo to that team tolerating 422. The existingTeams and
existingRepos arguments default to [] when undefined; existingTeams is
never read. Returns (trace of calls, updated error log). -/
def upsertRepo (b : Backend) (existingTeamsArg : Option (List Team))
    (existingReposArg : Option (List Repository)) (repoOption : RepoOption)
    (teamName : Option String) (errors : List String) :
    List TraceEntry × List String :=
  let existingRepos := existingReposArg.getD []
  let r1 : List TraceEntry × List String :=
    match existingRepos.find? (fun el => el.name == repoOption.name) with
    | none =>
      ([⟨GiteaCall.createOrgRepo orgName repoOption, some 422⟩],
       (doApiCall errors
         ("Creating repo \"" ++ repoOption.name ++ "\" in org \"" ++ orgName ++ "\"")
         (b.createRepo orgName repoOption) (some 422)).2)
    | some _ =>
      ([⟨GiteaCall.repoEdit orgName repoOption.name repoOption, some 422⟩],
       (doApiCall errors
         ("Updating repo \"" ++ repoOption.name ++ "\" in org \"" ++ orgName ++ "\"")
         (b.editRepo orgName repoOption.name repoOption) (some 422)).2)
  match teamName with
  | some tnm =>
    if tnm = "" then r1
    else
      (r1.1 ++ [⟨GiteaCall.repoAddTeam orgName repoOption.name tnm, some 422⟩],
       (doApiCall r1.2
         ("Adding repo \"" ++ repoOption.name ++ "\" to team \"" ++ tnm ++ "\"")
         (b.addTeamToRepo orgName repoOption.name tnm) (some 422)).2)
  | none => r1

/-- A JavaScript abort: an exception that escapes the embedded operation as
an uncaught rejection. -/
inductive JsAbort where
  | serviceLookupRejected
  | hookUrlTypeError
deriving DecidableEq, Repr

/-- The tekton url computed by addHook (gitea.ts lines 126-135): the
clusterIP from the first (try/catch-guarded) service lookup when it
succeeds, else the hardcoded in-cluster default. -/
def resolvedTektonUrl (b : Backend) : String :=
  match b.readService1 with
  | Except.ok clusterIP => clusterIP
  | Except.error _ => "http://el-tekton-listener.team-admin.svc.cluster.local:8080"

/-- addHook (gitea.ts lines 124-156): compute the tekton url (first service
lookup, guarded, with hardcoded fallback); then repeat the service lookup
outside any handler — a failure there escapes as an uncaught rejection;
then check for an existing Tekton hook and, when none was found, create a
push hook of type Gitea pointing at the computed url, tolerating 304. -/
def addHook (b : Backend) (errors : List String) :
    Except JsAbort (List TraceEntry × List String) :=
  let tektonUrl := resolvedTektonUrl b
  match b.readService2 with
  | Except.error _ => Except.error JsAbort.serviceLookupRejected
  | Except.ok _ =>
    match hasTektonHook b errors with
    | Except.error _ => Except.error JsAbort.hookUrlTypeError
    | Except.ok out =>
      if !out.1 then
        let opt : CreateHookOption :=
          { type := HookType.gitea
            config := { url := tektonUrl, http_method := "post", content_type := "json" }
            events := ["push"] }
        Except.ok (out.2.1 ++ [⟨GiteaCall.repoCreateHook orgName "values" opt, some 304⟩],
          (doApiCall out.2.2 "Adding hook \"tekton\" to repo otomi/values"
            (b.createHook orgName "values" opt) (some 304)).2)
      else Except.ok (out.2.1, out.2.2)

/-- A tenant's self-service configuration (teamConfig[teamId].selfService). -/
structure SelfService where
  apps : Option (List String)
deriving DecidableEq, Repr

/-- A tenant's configuration entry in teamConfig. -/
structure TeamSettings where
  selfService : Option SelfService
deriving DecidableEq, Repr

/-- The environment-derived configuration of one run: the teamConfig object
(as an association list in key order) and the argocd-enabled flag. -/
structure Env where
  teamConfig : List (String × TeamSettings)
  hasArgo : Bool

/-- The self-service check of main (gitea.ts line 180):
(teamConfig[teamId]?.selfService?.apps || []).includes('gitea'). -/
def giteaAppEnabled (cfg : Option TeamSettings) : Bool :=
  (((cfg.bind TeamSettings.selfService).bind SelfService.apps).getD []).contains "gitea"

/-- The team option main passes to upsertTeam for one tenant (gitea.ts lines
178-182): the admin template when the tenant's self-service apps list
gitea, else the editor template, with name team-<teamId>. -/
def tenantTeamOption (teamId : String) (cfg : Option TeamSettings) : CreateTeamOption :=
  let name := "team-" ++ teamId
  if giteaAppEnabled cfg then { adminTeam with name := name }
  else { editorTeam with name := name }

/-- The repo option for the shared values repository (gitea.ts lines
188-193). -/
def valuesRepoOption : RepoOption :=
  { autoInit := false
    name := otomiValuesRepoName
    «_private» := true }

/-- The outcome of a completed run of main. -/
structure RunResult where
  errors : List String
  trace : List TraceEntry
  inspectedErrorLog : Bool
  exitCode : Nat
  printedErrorDump : Option (List String)
deriving DecidableEq, Repr

/-- The sequential prefix of main up to and including addHook (gitea.ts
lines 158-210): org creation (tolerate 422), team listing, the per-tenant
team fan-out, the viewer team upsert, repo listing, the values repo upsert
(no team binding), the direct bind of values to otomi-viewer (tolerate
422), and addHook. The availability wait is modelled as already satisfied:
its failure is fatal and produces no completed run. -/
def mainUpToHook (env : Env) (b : Backend) :
    Except JsAbort (List TraceEntry × List String) :=
  let r1 := doApiCall ([] : List String)
    ("Creating org \"" ++ orgName ++ "\"") b.orgCreate (some 422)
  let t1 : List TraceEntry := [⟨GiteaCall.orgCreate, some 422⟩]
  let r2 := doApiCall r1.2
    ("Getting all teams in org \"" ++ orgName ++ "\"") b.listTeams none
  let existingTeams := r2.1
  let t2 := t1 ++ [⟨GiteaCall.orgListTeams, none⟩]
  let fan := (env.teamConfig.map Prod.fst).foldl
    (fun (acc : List TraceEntry × List String) teamId =>
      let r := upsertTeam b existingTeams
        (tenantTeamOption teamId (env.teamConfig.lookup teamId)) acc.2
      (acc.1 ++ r.1, r.2)) (t2, r2.2)
  let r4 := upsertTeam b existingTeams readOnlyTeam fan.2
  let t4 := fan.1 ++ r4.1
  let r5 := doApiCall r4.2
    ("Getting all repos in org \"" ++ orgName ++ "\"") b.listRepos none
  let t5 := t4 ++ [⟨GiteaCall.orgListRepos, none⟩]
  let r6 := upsertRepo b existingTeams r5.1 valuesRepoOption none r5.2
  let t6 := t5 ++ r6.1
  let r7 := doApiCall r6.2 "Adding repo values to team otomi-viewer"
    (b.addTeamToRepo orgName "values" "otomi-viewer") (some 422)
  let t7 := t6 ++ [⟨GiteaCall.repoAddTeam orgName "values" "otomi-viewer", some 422⟩]
  match addHook b r7.2 with
  | Except.error e => Except.error e
  | Except.ok out => Except.ok (t7 ++ out.1, out.2)

/-- The per-tenant gitops-repo fan-out of main (gitea.ts lines 215-227):
for each tenant, upsert team-<teamId>-argocd (autoInit, private) bound to
team-<teamId>. -/
def gitopsFanout (env : Env) (b : Backend)
    (existingTeams : Option (List Team)) (existingRepos : Option (List Repository))
    (start : List TraceEntry × List String) : List TraceEntry × List String :=
  (env.teamConfig.map Prod.fst).foldl
    (fun (acc : List TraceEntry × List String) teamId =>
      let name := "team-" ++ teamId ++ "-argocd"
      let option : RepoOption := { valuesRepoOption with autoInit := true, name := name }
      let r := upsertRepo b existingTeams existingRepos option
        (some ("team-" ++ teamId)) acc.2
      (acc.1 ++ r.1, r.2)) start

/-- main (gitea.ts lines 158-234). After the prefix up to addHook: when
hasArgo is false, main returns immediately (the error log is never
inspected, nothing is printed, the process ends with exit code 0);
otherwise it runs the gitops fan-out, then inspects the error log: a
non-empty log is printed and the process exits 1, an empty one prints
success and the process ends with exit code 0.

The fan-out re-reads the team and repo listings of the prefix; to keep the
embedding lookup-faithful the listings are recomputed here from the same
backend results the prefix used. -/
def mainRun (env : Env) (b : Backend) : Except JsAbort RunResult :=
  match mainUpToHook env b with
  | Except.error e => Except.error e
  | Except.ok pre =>
    if !env.hasArgo then Except.ok ⟨pre.2, pre.1, false, 0, none⟩
    else
      let g := gitopsFanout env b b.listTeams.toOption b.listRepos.toOption pre
      if g.2.length ≠ 0 then Except.ok ⟨g.2, g.1, true, 1, some g.2⟩
      else Except.ok ⟨g.2, g.1, true, 0, none⟩

/-- A backend on which every call succeeds: listings are empty, mutations
return unit, the first service lookup resolves to a cluster ip. -/
def okBackend : Backend where
  orgCreate := Except.ok ()
  listTeams := Except.ok []
  editTeam := fun _ _ => Except.ok ()
  createTeam := fun _ _ => Except.ok ()
  listRepos := Except.ok []
  createRepo := fun _ _ => Except.ok ()
  editRepo := fun _ _ _ => Except.ok ()
  addTeamToRepo := fun _ _ _ => Except.ok ()
  listHooks := Except.ok []
  createHook := fun _ _ _ => Except.ok ()
  readService1 := Except.ok "1.2.3.4"
  readService2 := Except.ok "1.2.3.4"

/-- Like okBackend, but org creation fails with a non-tolerated status. -/
def failBackend : Backend :=
  { okBackend with orgCreate := Except.error ⟨500, "boom"⟩ }

/-- Like okBackend, but both service-discovery lookups fail. -/
def lookupFailBackend : Backend :=
  { okBackend with
    readService1 := Except.error ()
    readService2 := Except.error () }

/-- Like okBackend, but the hook listing returns one hook whose url contains
the tekton listener path segment. -/
def hookBackend : Backend :=
  { okBackend with
    listHooks := Except.ok [⟨some ⟨some "http://el-tekton-listener.team-admin.svc.cluster.local:8080"⟩⟩] }

/-- A run configuration with no tenants and the argocd feature disabled. -/
def envNoArgo : Env := ⟨[], false⟩

/-- A run configuration with no tenants and the argocd feature enabled. -/
def envArgo : Env := ⟨[], true⟩

theorem scanHooks_ok_eq (hooks : List Hook) (acc b : Bool)
    (h : scanHooks hooks acc = Except.ok b) : b = (acc || hooks.any hookMatch) := by
  induction hooks generalizing acc with
  | nil =>
    simp only [scanHooks, Except.ok.injEq] at h
    simp [h]
  | cons hook rest ih =>
    cases hc : hook.config with
    | none =>
      simp only [scanHooks, hc] at h
      simp [List.any_cons, hookMatch, hc, ih acc h]
    | some cfg0 =>
      cases hu : cfg0.url with
      | none =>
        simp only [scanHooks, hc, hu] at h
        cases h
      | some u =>
        simp only [scanHooks, hc, hu] at h
        simp [List.any_cons, hookMatch, hc, hu, ih _ h, Bool.or_assoc]

theorem hasTektonHook_trace (b : Backend) (errs : List String)
    (res : Bool × List TraceEntry × List String)
    (h : hasTektonHook b errs = Except.ok res) :
    res.2.1 = [⟨GiteaCall.repoListHooks orgName "values", some 400⟩] := by
  unfold hasTektonHook at h
  simp only [doApiCall_fst] at h
  rcases hl : b.listHooks with e | hooks <;>
    rw [hl] at h <;> simp only [Except.toOption] at h
  · injection h with h
    subst h
    rfl
  · rcases hs : scanHooks hooks false with e' | tk <;> rw [hs] at h
    · cases h
    · injection h with h
      subst h
      rfl

/-- C10: for any two values of the existingTeams argument and otherwise
identical inputs and backend behaviour, upsertRepo issues the same trace of
backend calls and produces the same error log: its behaviour never depends
on existingTeams. -/
theorem upsertRepo_independent_of_existingTeams (b : Backend)
    (ts1 ts2 : Option (List Team)) (rs : Option (List Repository))
    (opt : RepoOption) (tn : Option String) (errs : List String) :
    upsertRepo b ts1 rs opt tn errs = upsertRepo b ts2 rs opt tn errs := rfl

/-- C7: the viewer team template has permission Read with
includesAllRepositories true; the editor and admin templates, and every
tenant team option derived from them, have includesAllRepositories false;
the three templates carry permissions Read, Write, Admin respectively,
forming the strict order Read < Write < Admin. -/
theorem team_template_invariants :
    readOnlyTeam.permission = Permission.read ∧
    readOnlyTeam.includesAllRepositories = true ∧
    editorTeam.includesAllRepositories = false ∧
    adminTeam.includesAllRepositories = false ∧
    (∀ teamId cfg, (tenantTeamOption teamId cfg).includesAllRepositories = false) ∧
    editorTeam.permission = Permission.write ∧
    adminTeam.permission = Permission.admin ∧
    permRank readOnlyTeam.permission < permRank editorTeam.permission ∧
    permRank editorTeam.permission < permRank adminTeam.permission := by
  refine ⟨rfl, rfl, rfl, rfl, ?_, rfl, rfl, by decide, by decide⟩
  intro teamId cfg
  unfold tenantTeamOption
  split <;> rfl

/-- C1: upsertTeam issues exactly one backend call, never both an edit and a
create: when some existing team's name equals the desired name it edits
that team by id tolerating 422, otherwise it creates the team tolerating
422. -/
theorem upsertTeam_exactly_one_call (b : Backend) (ts : Option (List Team))
    (topt : CreateTeamOption) (errs : List String) :
    (upsertTeam b ts topt errs).1.length = 1 ∧
    ¬(((upsertTeam b ts topt errs).1.any TraceEntry.isEditTeamCall) = true ∧
      ((upsertTeam b ts topt errs).1.any TraceEntry.isCreateTeamCall) = true) ∧
    ((∃ t ∈ ts.getD [], t.name = topt.name) →
      ∃ t ∈ ts.getD [], t.name = topt.name ∧
        (upsertTeam b ts topt errs).1 = [⟨GiteaCall.orgEditTeam t.id topt, some 422⟩]) ∧
    ((¬∃ t ∈ ts.getD [], t.name = topt.name) →
      (upsertTeam b ts topt errs).1 = [⟨GiteaCall.orgCreateTeam orgName topt, some 422⟩]) := by
  unfold upsertTeam
  rcases hf : (ts.getD []).find? (fun el => el.name == topt.name) with _ | t
  · refine ⟨?_, ?_, ?_, ?_⟩
    · simp [hf]
    · simp [hf, TraceEntry.isEditTeamCall, TraceEntry.isCreateTeamCall]
    · rintro ⟨t, ht, hname⟩
      have hnone := List.find?_eq_none.mp hf t ht
      simp [hname] at hnone
    · intro _
      simp [hf]
  · have hmem := List.mem_of_find?_eq_some hf
    have hname : t.name = topt.name := by
      have := List.find?_some hf
      simpa using this
    refine ⟨?_, ?_, ?_, ?_⟩
    · simp [hf]
    · simp [hf, TraceEntry.isEditTeamCall, TraceEntry.isCreateTeamCall]
    · intro _
      exact ⟨t, hmem, hname, by simp [hf]⟩
    · intro hno
      exact absurd ⟨t, hmem, hname⟩ hno

/-- Fixture for the C1 witness: the editor template named team-a. -/
def teamAOpt : CreateTeamOption := { editorTeam with name := "team-a" }

theorem upsertTeam_exactly_one_call_witness :
    (upsertTeam okBackend (some [⟨7, "team-a"⟩]) teamAOpt []).1 =
      [⟨GiteaCall.orgEditTeam 7 teamAOpt, some 422⟩] := by
  obtain ⟨-, -, h3, -⟩ :=
    upsertTeam_exactly_one_call okBackend (some [⟨7, "team-a"⟩]) teamAOpt []
  obtain ⟨t, ht, -, heq⟩ := h3 ⟨⟨7, "team-a"⟩, by simp, rfl⟩
  have hteq : t = ⟨7, "team-a"⟩ := by simpa using ht
  rw [heq, hteq]

/-- C2: the team option main passes to upsertTeam for a tenant is the admin
template exactly when the tenant's self-service configuration lists the
gitea app, and the editor (Write) template otherwise; in both cases the
name is team-<tenantId>. -/
theorem tenantTeamOption_spec (teamId : String) (cfg : Option TeamSettings) :
    giteaAppEnabled cfg =
      (((cfg.bind TeamSettings.selfService).bind SelfService.apps).getD []).contains "gitea" ∧
    (giteaAppEnabled cfg = true →
      tenantTeamOption teamId cfg = { adminTeam with name := "team-" ++ teamId }) ∧
    (giteaAppEnabled cfg = false →
      tenantTeamOption teamId cfg = { editorTeam with name := "team-" ++ teamId }) ∧
    (tenantTeamOption teamId cfg).name = "team-" ++ teamId ∧
    ((tenantTeamOption teamId cfg).permission = Permission.admin ↔
      giteaAppEnabled cfg = true) := by
  refine ⟨rfl, fun hE => ?_, fun hE => ?_, ?_, ?_⟩
  · simp [tenantTeamOption, hE]
  · simp [tenantTeamOption, hE]
  · simp only [tenantTeamOption]
    split <;> rfl
  · simp only [tenantTeamOption]
    cases hE : giteaAppEnabled cfg <;>
      simp [hE, adminTeam, editorTeam, readOnlyTeam]

theorem tenantTeamOption_spec_witness :
    tenantTeamOption "demo" (some ⟨some ⟨some ["gitea"]⟩⟩) =
      { adminTeam with name := "team-" ++ "demo" } :=
  (tenantTeamOption_spec "demo" (some ⟨some ⟨some ["gitea"]⟩⟩)).2.1 (by decide)

/-- C9: the hook scan of hasTektonHook guards only the presence of each
hook's config before reading config.url, so it evaluates without a runtime
error exactly when every hook that has a config also has a url in that
config: the precondition is sufficient, and its failure at any hook makes
the scan hit the error branch. -/
theorem scanHooks_total_iff (hooks : List Hook) (acc : Bool) :
    (∃ b, scanHooks hooks acc = Except.ok b) ↔
      (∀ h ∈ hooks, ∀ cfg, h.config = some cfg → cfg.url ≠ none) := by
  induction hooks generalizing acc with
  | nil => simp [scanHooks]
  | cons hook rest ih =>
    cases hc : hook.config with
    | none =>
      simp only [scanHooks, hc]
      rw [ih acc]
      constructor
      · intro hrest h hh cfg hcfg
        rcases List.mem_cons.mp hh with rfl | hh
        · rw [hc] at hcfg
          cases hcfg
        · exact hrest h hh cfg hcfg
      · intro hall h hh cfg hcfg
        exact hall h (List.mem_cons_of_mem _ hh) cfg hcfg
    | some cfg0 =>
      cases hu : cfg0.url with
      | none =>
        simp only [scanHooks, hc, hu]
        constructor
        · rintro ⟨b, hb⟩
          cases hb
        · intro hall
          exact absurd hu (hall hook (List.mem_cons_self _ _) cfg0 hc)
      | some u =>
        simp only [scanHooks, hc, hu]
        rw [ih (acc || strContains u "el-tekton-listener")]
        constructor
        · intro hrest h hh cfg hcfg
          rcases List.mem_cons.mp hh with rfl | hh
          · rw [hc] at hcfg
            injection hcfg with e
            subst e
            simp [hu]
          · exact hrest h hh cfg hcfg
        · intro hall h hh cfg hcfg
          exact hall h (List.mem_cons_of_mem _ hh) cfg hcfg

/-- C3 counterexample: the team name argument some "" is supplied (it is
not none), yet upsertRepo issues no add-repo-to-team call for it, because
the source tests the argument for JavaScript truthiness and the empty
string is falsy. -/
theorem upsertRepo_supplied_empty_name_no_bind :
    ((some "" : Option String) ≠ none) ∧
    ((upsertRepo okBackend none none valuesRepoOption (some "") []).1.any
      TraceEntry.isAddTeamCall) = false :=
  ⟨by simp, by rfl⟩

/-- C3 amended: upsertRepo attempts the add-repo-to-team binding call iff a
non-empty team name was supplied; the create branch (repo absent) issues
the create call tolerating 422, the edit branch (repo present) issues the
edit call tolerating 422, and in both branches a supplied non-empty team
name makes the binding call (tolerating 422) follow. -/
theorem upsertRepo_bind_iff_nonempty (b : Backend) (ts : Option (List Team))
    (rs : Option (List Repository)) (opt : RepoOption) (tn : Option String)
    (errs : List String) :
    (((upsertRepo b ts rs opt tn errs).1.any TraceEntry.isAddTeamCall) = true ↔
      ∃ s, tn = some s ∧ s ≠ "") ∧
    ((rs.getD []).find? (fun el => el.name == opt.name) = none →
      (upsertRepo b ts rs opt tn errs).1.head? =
        some ⟨GiteaCall.createOrgRepo orgName opt, some 422⟩) ∧
    (∀ r, (rs.getD []).find? (fun el => el.name == opt.name) = some r →
      (upsertRepo b ts rs opt tn errs).1.head? =
        some ⟨GiteaCall.repoEdit orgName opt.name opt, some 422⟩) ∧
    (∀ s, tn = some s → s ≠ "" →
      (upsertRepo b ts rs opt tn errs).1 =
        [⟨GiteaCall.createOrgRepo orgName opt, some 422⟩,
         ⟨GiteaCall.repoAddTeam orgName opt.name s, some 422⟩] ∨
      (upsertRepo b ts rs opt tn errs).1 =
        [⟨GiteaCall.repoEdit orgName opt.name opt, some 422⟩,
         ⟨GiteaCall.repoAddTeam orgName opt.name s, some 422⟩]) := by
  unfold upsertRepo
  rcases hf : (rs.getD []).find? (fun el => el.name == opt.name) with _ | r0 <;>
    rcases tn with _ | s0
  · refine ⟨?_, ?_, ?_, ?_⟩
    · simp [hf, TraceEntry.isAddTeamCall]
    · intro _
      simp [hf]
    · intro r hr
      rw [hf] at hr
      cases hr
    · intro s hs
      cases hs
  · by_cases hs : s0 = ""
    · subst hs
      refine ⟨?_, ?_, ?_, ?_⟩
      · simp [hf, TraceEntry.isAddTeamCall]
      · intro _
        simp [hf]
      · intro r hr
        rw [hf] at hr
        cases hr
      · intro s hseq hne
        injection hseq with e
        subst e
        exact absurd rfl hne
    · refine ⟨?_, ?_, ?_, ?_⟩
      · simp [hf, hs, TraceEntry.isAddTeamCall]
      · intro _
        simp [hf, hs]
      · intro r hr
        rw [hf] at hr
        cases hr
      · intro s hseq hne
        injection hseq with e
        subst e
        left
        simp [hf, hs]
  · refine ⟨?_, ?_, ?_, ?_⟩
    · simp [hf, TraceEntry.isAddTeamCall]
    · intro hn
      rw [hf] at hn
      cases hn
    · intro r hr
      simp [hf]
    · intro s hsq
      cases hsq
  · by_cases hs : s0 = ""
    · subst hs
      refine ⟨?_, ?_, ?_, ?_⟩
      · simp [hf, TraceEntry.isAddTeamCall]
      · intro hn
        rw [hf] at hn
        cases hn
      · intro r hr
        simp [hf]
      · intro s hseq hne
        injection hseq with e
        subst e
        exact absurd rfl hne
    · refine ⟨?_, ?_, ?_, ?_⟩
      · simp [hf, hs, TraceEntry.isAddTeamCall]
      · intro hn
        rw [hf] at hn
        cases hn
      · intro r hr
        simp [hf, hs]
      · intro s hseq hne
        injection hseq with e
        subst e
        right
        simp [hf, hs]

theorem upsertRepo_bind_iff_nonempty_witness :
    (upsertRepo okBackend none none valuesRepoOption (some "team-a") []).1 =
      [⟨GiteaCall.createOrgRepo orgName valuesRepoOption, some 422⟩,
       ⟨GiteaCall.repoAddTeam orgName valuesRepoOption.name "team-a", some 422⟩] := by
  have h := (upsertRepo_bind_iff_nonempty okBackend none none valuesRepoOption
    (some "team-a") []).2.2.2 "team-a" rfl (by decide)
  rcases h with h | h
  · exact h
  · exact absurd h (by decide)

theorem any_hookMatch_iff (hooks : List Hook) :
    hooks.any hookMatch = true ↔
      ∃ hook ∈ hooks, ∃ cfg, hook.config = some cfg ∧
        ∃ u, cfg.url = some u ∧ strContains u "el-tekton-listener" = true := by
  rw [List.any_eq_true]
  constructor
  · rintro ⟨hk, hm, hmt⟩
    refine ⟨hk, hm, ?_⟩
    rcases hc : hk.config with _ | cfg
    · simp only [hookMatch, hc] at hmt
      exact Bool.noConfusion hmt
    · rcases hu : cfg.url with _ | u
      · simp only [hookMatch, hc, hu] at hmt
        exact Bool.noConfusion hmt
      · simp only [hookMatch, hc, hu] at hmt
        exact ⟨cfg, rfl, u, hu, hmt⟩
  · rintro ⟨hk, hm, cfg, hc, u, hu, hcon⟩
    refine ⟨hk, hm, ?_⟩
    simp only [hookMatch, hc, hu]
    exact hcon

/-- C4: hasTektonHook returns true iff at least one hook returned by the
hook-listing call has a config whose url contains the fixed listener path
segment el-tekton-listener; and on a completed addHook run the hook-create
call appears in addHook's trace iff the detection returned false. -/
theorem hasTektonHook_addHook_spec (b : Backend) (errs : List String)
    (res : Bool × List TraceEntry × List String) (out : List TraceEntry × List String)
    (h1 : hasTektonHook b errs = Except.ok res) (h2 : addHook b errs = Except.ok out) :
    (res.1 = true ↔ ∃ hooks, b.listHooks = Except.ok hooks ∧
      ∃ hook ∈ hooks, ∃ cfg, hook.config = some cfg ∧
        ∃ u, cfg.url = some u ∧ strContains u "el-tekton-listener" = true) ∧
    ((out.1.any TraceEntry.isCreateHookCall) = true ↔ res.1 = false) := by
  have htr := hasTektonHook_trace b errs res h1
  constructor
  · unfold hasTektonHook at h1
    simp only [doApiCall_fst] at h1
    rcases hl : b.listHooks with e | hooks <;> rw [hl] at h1 <;>
      simp only [Except.toOption] at h1
    · injection h1 with h1
      subst h1
      simp [hl]
    · rcases hs : scanHooks hooks false with e' | tk <;> rw [hs] at h1
      · cases h1
      · injection h1 with h1
        subst h1
        have hval := scanHooks_ok_eq hooks false tk hs
        simp only [Bool.false_or] at hval
        subst hval
        rw [any_hookMatch_iff hooks]
        simp [hl]
  · unfold addHook at h2
    rcases hs2 : b.readService2 with e2 | s2 <;> rw [hs2] at h2
    · cases h2
    · rw [h1] at h2
      rcases hres : res.1 with _ | _ <;> simp only [hres] at h2
      · simp only [Bool.not_false, if_true] at h2
        injection h2 with h2
        subst h2
        rw [htr]
        simp [TraceEntry.isCreateHookCall]
      · simp only [Bool.not_true, if_false] at h2
        injection h2 with h2
        subst h2
        rw [htr]
        simp [TraceEntry.isCreateHookCall]

/-- The trace entry of the hook-listing call, shared by the addHook
fixtures. -/
def hookListEntry : TraceEntry := ⟨GiteaCall.repoListHooks orgName "values", some 400⟩

theorem hasTektonHook_addHook_spec_witness :
    (hasTektonHook hookBackend [] = Except.ok (true, [hookListEntry], [])) ∧
    (addHook hookBackend [] = Except.ok ([hookListEntry], [])) ∧
    (([hookListEntry].any TraceEntry.isCreateHookCall) = false) := by
  have h1 : hasTektonHook hookBackend [] = Except.ok (true, [hookListEntry], []) := by
    rfl
  have h2 : addHook hookBackend [] = Except.ok ([hookListEntry], []) := by
    rfl
  have h := hasTektonHook_addHook_spec hookBackend [] (true, [hookListEntry], [])
    ([hookListEntry], []) h1 h2
  refine ⟨h1, h2, ?_⟩
  simpa using h.2

/-- C6: the claim says a failing service-discovery lookup makes addHook
fall back to the default address and proceed; on the code, the second,
unguarded lookup rejects and addHook aborts before any hook call. -/
theorem addHook_aborts_on_lookup_failure :
    addHook lookupFailBackend [] = Except.error JsAbort.serviceLookupRejected := rfl

/-- C8: every hook-create call of a completed addHook run carries the
option with type Gitea, http_method post, content_type json, events
exactly [push] and url equal to the resolved-or-fallback listener address,
and tolerates status 304. -/
theorem addHook_created_hook_shape (b : Backend) (errs : List String)
    (out : List TraceEntry × List String) (h : addHook b errs = Except.ok out)
    (e : TraceEntry) (he : e ∈ out.1) (hc : TraceEntry.isCreateHookCall e = true) :
    e = ⟨GiteaCall.repoCreateHook orgName "values"
          ⟨HookType.gitea, ⟨resolvedTektonUrl b, "post", "json"⟩, ["push"]⟩, some 304⟩ := by
  unfold addHook at h
  rcases hs2 : b.readService2 with e2 | s2 <;> rw [hs2] at h
  · cases h
  · rcases hht : hasTektonHook b errs with e3 | res <;> rw [hht] at h
    · cases h
    · have htr := hasTektonHook_trace b errs res hht
      rcases hres : res.1 with _ | _ <;> simp only [hres] at h
      · simp only [Bool.not_false, if_true] at h
        injection h with h
        subst h
        rw [htr] at he
        rcases List.mem_append.mp he with hm | hm
        · rw [List.mem_singleton.mp hm] at hc
          cases hc
        · exact List.mem_singleton.mp hm
      · simp only [Bool.not_true, if_false] at h
        injection h with h
        subst h
        rw [htr] at he
        rw [List.mem_singleton.mp he] at hc
        cases hc

/-- The hook-create trace entry addHook issues against okBackend. -/
def createEntryEx : TraceEntry :=
  ⟨GiteaCall.repoCreateHook orgName "values"
    ⟨HookType.gitea, ⟨"1.2.3.4", "post", "json"⟩, ["push"]⟩, some 304⟩

theorem addHook_created_hook_shape_witness :
    createEntryEx =
      ⟨GiteaCall.repoCreateHook orgName "values"
        ⟨HookType.gitea, ⟨resolvedTektonUrl okBackend, "post", "json"⟩, ["push"]⟩,
       some 304⟩ :=
  addHook_created_hook_shape okBackend [] ([hookListEntry, createEntryEx], [])
    (by rfl) createEntryEx (by decide) (by decide)

/-- C5 counterexample: with the argocd feature disabled and the org
creation failing with a non-tolerated status, main completes with one
recorded error yet never inspects the error log: no error dump is printed
and the process ends with exit code 0, not 1. -/
theorem mainRun_no_inspection_counterexample :
    (mainRun envNoArgo failBackend).toOption.map
      (fun r => (r.errors.length, r.inspectedErrorLog, r.exitCode, r.printedErrorDump)) =
      some (1, false, 0, none) := by rfl

/-- C5 amended: the end-of-run error-log inspection happens iff the argocd
feature is enabled. On such runs a non-empty log is printed and the process
exits 1 and an empty log reports success with exit code 0; when the feature
is disabled, main returns right after hook installation with exit code 0
and prints no error dump, whatever the error log contains. -/
theorem mainRun_inspects_iff_argo (env : Env) (b : Backend) (r : RunResult)
    (h : mainRun env b = Except.ok r) :
    (r.inspectedErrorLog = env.hasArgo) ∧
    (env.hasArgo = true → r.errors ≠ [] →
      r.exitCode = 1 ∧ r.printedErrorDump = some r.errors) ∧
    (env.hasArgo = true → r.errors = [] →
      r.exitCode = 0 ∧ r.printedErrorDump = none) ∧
    (env.hasArgo = false → r.exitCode = 0 ∧ r.printedErrorDump = none) := by
  unfold mainRun at h
  split at h
  · cases h
  · split at h
    · rename_i hA
      have hA' : env.hasArgo = false := by simpa using hA
      injection h with h
      subst h
      refine ⟨hA'.symm, ?_, ?_, fun _ => ⟨rfl, rfl⟩⟩
      · intro hc
        rw [hA'] at hc
        exact Bool.noConfusion hc
      · intro hc
        rw [hA'] at hc
        exact Bool.noConfusion hc
    · rename_i hA
      have hA' : env.hasArgo = true := by simpa using hA
      simp only [ne_eq] at h
      split at h <;> injection h with h <;> subst h
      · rename_i hcond
        refine ⟨hA'.symm, fun _ _ => ⟨rfl, rfl⟩, ?_, ?_⟩
        · intro _ he
          exact absurd he (by simpa [List.length_eq_zero] using hcond)
        · intro hfalse
          rw [hA'] at hfalse
          exact Bool.noConfusion hfalse
      · rename_i hcond
        refine ⟨hA'.symm, ?_, fun _ _ => ⟨rfl, rfl⟩, ?_⟩
        · intro _ hne
          exact absurd (List.length_eq_zero.mp (not_not.mp hcond)) hne
        · intro hfalse
          rw [hA'] at hfalse
          exact Bool.noConfusion hfalse

/-- The run result main produces for a tenant-free configuration with the
argocd feature enabled against okBackend. -/
def resultEx : RunResult :=
  ⟨[],
   [⟨GiteaCall.orgCreate, some 422⟩,
    ⟨GiteaCall.orgListTeams, none⟩,
    ⟨GiteaCall.orgCreateTeam orgName readOnlyTeam, some 422⟩,
    ⟨GiteaCall.orgListRepos, none⟩,
    ⟨GiteaCall.createOrgRepo orgName valuesRepoOption, some 422⟩,
    ⟨GiteaCall.repoAddTeam orgName "values" "otomi-viewer", some 422⟩,
    hookListEntry,
    createEntryEx],
   true, 0, none⟩

theorem mainRun_inspects_iff_argo_witness :
    (mainRun envArgo okBackend = Except.ok resultEx) ∧
    resultEx.inspectedErrorLog = true ∧ resultEx.exitCode = 0 ∧
    resultEx.printedErrorDump = none := by
  have hEq : mainRun envArgo okBackend = Except.ok resultEx := by rfl
  have h := mainRun_inspects_iff_argo envArgo okBackend resultEx hEq
  exact ⟨hEq, by simpa [envArgo] using h.1, (h.2.2.1 rfl rfl).1, (h.2.2.1 rfl rfl).2⟩

end GiteaTask
